import Mathlib

/-!
Verification of the session-scoped websocket connection registry
(`SessionWSRegistry`) and its lifecycle helpers.

Session identities and connection handles are opaque hashable values in the
source; we model both as natural numbers (an arbitrary countable supply of
tokens with decidable equality).  The registry, a Python `dict` mapping a
session id to a `set` of websocket responses, is modelled as an association
list with unique keys mapping to a `Finset` of handles.
-/

namespace AiohttpSessionWs

abbrev SessionWsId := Nat

abbrev WSHandle := Nat

/-- The `_registry` field: `Dict[Hashable, Set[WebSocketResponse]]`. -/
abbrev Registry := List (SessionWsId × Finset WSHandle)

/-- Dictionary lookup `self._registry[key]` / `self._registry.get(key)`. -/
def lookupReg : Registry → SessionWsId → Option (Finset WSHandle)
  | [], _ => none
  | (k, v) :: t, i => if k = i then some v else lookupReg t i

/-- Dictionary write `self._registry[key] = s` (also used for `setdefault`):
updates the entry for the key in place, or appends a fresh entry. -/
def setEntry : Registry → SessionWsId → Finset WSHandle → Registry
  | [], i, s => [(i, s)]
  | (k, v) :: t, i, s => if k = i then (i, s) :: t else (k, v) :: setEntry t i s

/-- Dictionary delete `del self._registry[key]`. -/
def eraseEntry : Registry → SessionWsId → Registry
  | [], _ => []
  | (k, v) :: t, i => if k = i then t else (k, v) :: eraseEntry t i

/-- `SessionWSRegistry.register`:
`wsrs = self._registry.setdefault(session_ws_id, set()); wsrs.add(wsr)`. -/
def register (r : Registry) (session_ws_id : SessionWsId) (wsr : WSHandle) :
    Registry :=
  setEntry r session_ws_id (insert wsr ((lookupReg r session_ws_id).getD ∅))

/-- Outcome of `SessionWSRegistry.unregister`: either a normal return or a
`KeyError` escaping from `set.remove`; both carry the registry state the
mapping is left in. -/
inductive UnregResult where
  | ok (r : Registry)
  | keyError (r : Registry)
  deriving DecidableEq

/-- The registry state after the call, whether or not it raised. -/
def UnregResult.state : UnregResult → Registry
  | .ok r => r
  | .keyError r => r

/-- `SessionWSRegistry.unregister`: silent no-op when the id is not a key;
deletes the key when its set is exactly `{wsr}`; otherwise `set.remove`,
which removes the handle or raises `KeyError` when it is absent. -/
def unregister (r : Registry) (session_ws_id : SessionWsId) (wsr : WSHandle) :
    UnregResult :=
  match lookupReg r session_ws_id with
  | none => .ok r
  | some s =>
    if s = {wsr} then .ok (eraseEntry r session_ws_id)
    else if wsr ∈ s then .ok (setEntry r session_ws_id (s.erase wsr))
    else .keyError r

/-- One registry mutation call. -/
inductive RegOp where
  | reg (session_ws_id : SessionWsId) (wsr : WSHandle)
  | unreg (session_ws_id : SessionWsId) (wsr : WSHandle)
  deriving DecidableEq

/-- Effect of one call on the registry (a `KeyError` from `unregister`
propagates to the caller but leaves the mapping untouched). -/
def applyOp (r : Registry) : RegOp → Registry
  | .reg i w => register r i w
  | .unreg i w => (unregister r i w).state

/-- Registry state after a sequence of register/unregister calls starting
from the empty registry of a fresh `SessionWSRegistry`. -/
def runOps (ops : List RegOp) : Registry :=
  ops.foldl applyOp []

/-- No key of the registry maps to an empty set. -/
def NoEmptySets (r : Registry) : Prop :=
  ∀ p ∈ r, p.2 ≠ (∅ : Finset WSHandle)

theorem mem_setEntry {r : Registry} {i : SessionWsId} {s : Finset WSHandle}
    {p : SessionWsId × Finset WSHandle} (hp : p ∈ setEntry r i s) :
    p = (i, s) ∨ p ∈ r := by
  induction r with
  | nil =>
    simp only [setEntry, List.mem_singleton] at hp
    exact Or.inl hp
  | cons kv t ih =>
    obtain ⟨k, v⟩ := kv
    simp only [setEntry] at hp
    by_cases hk : k = i
    · rw [if_pos hk] at hp
      rcases List.mem_cons.mp hp with h | h
      · exact Or.inl h
      · exact Or.inr (List.mem_cons_of_mem _ h)
    · rw [if_neg hk] at hp
      rcases List.mem_cons.mp hp with h | h
      · exact Or.inr (h ▸ List.mem_cons_self _ _)
      · rcases ih h with h2 | h2
        · exact Or.inl h2
        · exact Or.inr (List.mem_cons_of_mem _ h2)

theorem mem_eraseEntry {r : Registry} {i : SessionWsId}
    {p : SessionWsId × Finset WSHandle} (hp : p ∈ eraseEntry r i) : p ∈ r := by
  induction r with
  | nil => simp [eraseEntry] at hp
  | cons kv t ih =>
    obtain ⟨k, v⟩ := kv
    simp only [eraseEntry] at hp
    by_cases hk : k = i
    · rw [if_pos hk] at hp
      exact List.mem_cons_of_mem _ hp
    · rw [if_neg hk] at hp
      rcases List.mem_cons.mp hp with h | h
      · exact h ▸ List.mem_cons_self _ _
      · exact List.mem_cons_of_mem _ (ih h)

theorem lookupReg_mem {r : Registry} {i : SessionWsId} {s : Finset WSHandle}
    (h : lookupReg r i = some s) : (i, s) ∈ r := by
  induction r with
  | nil => simp [lookupReg] at h
  | cons kv t ih =>
    obtain ⟨k, v⟩ := kv
    simp only [lookupReg] at h
    by_cases hk : k = i
    · rw [if_pos hk] at h
      obtain rfl : v = s := Option.some.inj h
      exact hk ▸ List.mem_cons_self _ _
    · rw [if_neg hk] at h
      exact List.mem_cons_of_mem _ (ih h)

theorem lookupReg_setEntry_self (r : Registry) (i : SessionWsId)
    (s : Finset WSHandle) : lookupReg (setEntry r i s) i = some s := by
  induction r with
  | nil => simp [setEntry, lookupReg]
  | cons kv t ih =>
    obtain ⟨k, v⟩ := kv
    simp only [setEntry]
    by_cases hk : k = i
    · rw [if_pos hk]
      simp [lookupReg]
    · rw [if_neg hk]
      simp only [lookupReg, if_neg hk]
      exact ih

theorem setEntry_setEntry (r : Registry) (i : SessionWsId)
    (s s2 : Finset WSHandle) : setEntry (setEntry r i s) i s2 = setEntry r i s2 := by
  induction r with
  | nil => simp [setEntry]
  | cons kv t ih =>
    obtain ⟨k, v⟩ := kv
    by_cases hk : k = i
    · subst hk
      simp [setEntry]
    · simp only [setEntry, if_neg hk]
      rw [ih]

theorem noEmptySets_applyOp {r : Registry} (hr : NoEmptySets r) (op : RegOp) :
    NoEmptySets (applyOp r op) := by
  cases op with
  | reg i w =>
    intro p hp
    rcases mem_setEntry hp with h | h
    · subst h
      exact fun hc => absurd hc (Finset.insert_ne_empty _ _)
    · exact hr p h
  | unreg i w =>
    intro p hp
    cases hs : lookupReg r i with
    | none =>
      simp only [applyOp, unregister, hs, UnregResult.state] at hp
      exact hr p hp
    | some s =>
      by_cases h1 : s = {w}
      · simp only [applyOp, unregister, hs, if_pos h1, UnregResult.state] at hp
        exact hr p (mem_eraseEntry hp)
      · by_cases h2 : w ∈ s
        · simp only [applyOp, unregister, hs, if_neg h1, if_pos h2,
            UnregResult.state] at hp
          rcases mem_setEntry hp with h | h
          · subst h
            intro hc
            apply h1
            have hsub : s ⊆ {w} := by
              intro x hx
              rcases eq_or_ne x w with hxw | hxw
              · simp [hxw]
              · exact absurd (Finset.mem_erase.mpr ⟨hxw, hx⟩)
                  (by rw [show s.erase w = ∅ from hc]; exact Finset.not_mem_empty x)
            exact Finset.Subset.antisymm hsub (Finset.singleton_subset_iff.mpr h2)
          · exact hr p h
        · simp only [applyOp, unregister, hs, if_neg h1, if_neg h2,
            UnregResult.state] at hp
          exact hr p hp

theorem noEmptySets_foldl (ops : List RegOp) :
    ∀ r : Registry, NoEmptySets r → NoEmptySets (ops.foldl applyOp r) := by
  induction ops with
  | nil => intro r hr; simpa using hr
  | cons op t ih =>
    intro r hr
    exact ih _ (noEmptySets_applyOp hr op)

/-- Claim C1: starting from an empty registry, after any sequence of
`register` and `unregister` calls (hence at every point between operations)
no identity key of the registry maps to an empty set: `register` only
creates a key together with inserting a handle, and `unregister` deletes the
key as soon as removing the handle would leave its set empty. -/
theorem no_empty_set_entries (ops : List RegOp) : NoEmptySets (runOps ops) := by
  unfold runOps
  exact noEmptySets_foldl ops [] (by intro p hp; simp at hp)

/-- Claim C7: registering the same (identity, handle) pair twice leaves the
registry in the same state as registering it once (Python set.add of a
present element is a no-op, not an error), and when that pair is the only
registration the identity maps to the singleton set, of size one. -/
theorem register_duplicate_noop (r : Registry) (i : SessionWsId)
    (w : WSHandle) :
    register (register r i w) i w = register r i w
    ∧ lookupReg (runOps [RegOp.reg i w, RegOp.reg i w]) i = some {w}
    ∧ ((lookupReg (runOps [RegOp.reg i w, RegOp.reg i w]) i).getD ∅).card = 1 := by
  have hdup : ∀ r2 : Registry, register (register r2 i w) i w = register r2 i w := by
    intro r2
    unfold register
    rw [lookupReg_setEntry_self]
    simp only [Option.getD_some]
    rw [Finset.insert_idem, setEntry_setEntry]
  have h1 : runOps [RegOp.reg i w, RegOp.reg i w] = [(i, {w})] := by
    show register (register [] i w) i w = [(i, {w})]
    rw [hdup []]
    simp [register, lookupReg, setEntry]
  refine ⟨hdup r, ?_, ?_⟩
  · rw [h1]
    simp [lookupReg]
  · rw [h1]
    simp [lookupReg]

/-- Claim C8: `unregister` called with an identity that is absent from the
registry keys is a silent no-op: it returns normally (no exception) and the
registry is unchanged. -/
theorem unregister_missing_id_noop (r : Registry) (i : SessionWsId)
    (w : WSHandle) (h : lookupReg r i = none) :
    unregister r i w = UnregResult.ok r := by
  simp only [unregister, h]

/-- Witness for C8 at a concrete registry whose only key differs from the
queried identity. -/
theorem unregister_missing_id_noop_witness :
    lookupReg [((1 : SessionWsId), ({5} : Finset WSHandle))] 0 = none
    ∧ unregister [((1 : SessionWsId), ({5} : Finset WSHandle))] 0 7 =
      UnregResult.ok [((1 : SessionWsId), ({5} : Finset WSHandle))] :=
  ⟨by decide, unregister_missing_id_noop _ 0 7 (by decide)⟩

/-- Claim C10: `unregister` when the identity is a key but the handle is not
in its set raises KeyError (surfaced from `set.remove`) and leaves the
mapping unchanged. -/
theorem unregister_handle_missing_keyError (r : Registry) (i : SessionWsId)
    (w : WSHandle) (s : Finset WSHandle) (hs : lookupReg r i = some s)
    (hw : w ∉ s) :
    unregister r i w = UnregResult.keyError r
    ∧ (unregister r i w).state = r := by
  have h1 : s ≠ {w} := by
    intro h
    exact hw (h ▸ Finset.mem_singleton_self w)
  have h2 : unregister r i w = UnregResult.keyError r := by
    simp only [unregister, hs, if_neg h1, if_neg hw]
  exact ⟨h2, by rw [h2]; rfl⟩

/-- Witness for C10 at the registry mapping identity 0 to the set containing
only handle 1, unregistering the absent handle 2. -/
theorem unregister_handle_missing_keyError_witness :
    lookupReg [((0 : SessionWsId), ({1} : Finset WSHandle))] 0 = some {1}
    ∧ (2 : WSHandle) ∉ ({1} : Finset WSHandle)
    ∧ unregister [((0 : SessionWsId), ({1} : Finset WSHandle))] 0 2 =
      UnregResult.keyError [((0 : SessionWsId), ({1} : Finset WSHandle))] :=
  ⟨by decide, by decide,
    (unregister_handle_missing_keyError _ 0 2 {1} (by decide) (by decide)).1⟩

/-- The discipline the spec assumes of callers: every register call for a
given handle names the same identity (one connection is registered under
one session id). -/
def RegDiscipline (f : WSHandle → SessionWsId) : RegOp → Prop
  | .reg i w => i = f w
  | .unreg _ _ => True

instance (f : WSHandle → SessionWsId) (op : RegOp) :
    Decidable (RegDiscipline f op) :=
  match op with
  | .reg i w => inferInstanceAs (Decidable (i = f w))
  | .unreg _ _ => inferInstanceAs (Decidable True)

/-- Every handle stored under a key is owned by that key according to f. -/
def HandleOwner (f : WSHandle → SessionWsId) (r : Registry) : Prop :=
  ∀ p ∈ r, ∀ w ∈ p.2, p.1 = f w

theorem handleOwner_applyOp {f : WSHandle → SessionWsId} {r : Registry}
    (hr : HandleOwner f r) {op : RegOp} (hop : RegDiscipline f op) :
    HandleOwner f (applyOp r op) := by
  cases op with
  | reg i w =>
    intro p hp x hx
    rcases mem_setEntry hp with h | h
    · subst h
      rcases Finset.mem_insert.mp hx with hxw | hx0
      · subst hxw
        exact hop
      · cases hs : lookupReg r i with
        | none =>
          rw [hs] at hx0
          exact absurd hx0 (Finset.not_mem_empty x)
        | some s0 =>
          rw [hs] at hx0
          exact hr (i, s0) (lookupReg_mem hs) x hx0
    · exact hr p h x hx
  | unreg i w =>
    intro p hp x hx
    cases hs : lookupReg r i with
    | none =>
      simp only [applyOp, unregister, hs, UnregResult.state] at hp
      exact hr p hp x hx
    | some s =>
      by_cases h1 : s = {w}
      · simp only [applyOp, unregister, hs, if_pos h1, UnregResult.state] at hp
        exact hr p (mem_eraseEntry hp) x hx
      · by_cases h2 : w ∈ s
        · simp only [applyOp, unregister, hs, if_neg h1, if_pos h2,
            UnregResult.state] at hp
          rcases mem_setEntry hp with h | h
          · subst h
            exact hr (i, s) (lookupReg_mem hs) x (Finset.mem_of_mem_erase hx)
          · exact hr p h x hx
        · simp only [applyOp, unregister, hs, if_neg h1, if_neg h2,
            UnregResult.state] at hp
          exact hr p hp x hx

theorem handleOwner_foldl (f : WSHandle → SessionWsId) (ops : List RegOp) :
    ∀ r : Registry, HandleOwner f r → (∀ op ∈ ops, RegDiscipline f op) →
      HandleOwner f (ops.foldl applyOp r) := by
  induction ops with
  | nil => intro r hr _; simpa using hr
  | cons op t ih =>
    intro r hr hd
    exact ih _ (handleOwner_applyOp hr (hd op (List.mem_cons_self _ _)))
      (fun o ho => hd o (List.mem_cons_of_mem _ ho))

/-- Claim C9 counterexample: the registry itself does not enforce that a
handle belongs to at most one identity: from the empty registry,
register(0, 0) followed by register(1, 0) leaves handle 0 in the sets of
the two distinct identities 0 and 1. -/
theorem handle_two_identities_cex :
    (0 : WSHandle) ∈ ((lookupReg (runOps [RegOp.reg 0 0, RegOp.reg 1 0]) 0).getD ∅)
    ∧ (0 : WSHandle) ∈ ((lookupReg (runOps [RegOp.reg 0 0, RegOp.reg 1 0]) 1).getD ∅)
    ∧ (0 : SessionWsId) ≠ (1 : SessionWsId) := by decide

/-- Claim C9 (amended): under the usage discipline the spec assumes — every
register call for a given handle names the same identity — each handle
appears in the set of at most one identity at every reachable instant. -/
theorem handle_at_most_one_identity (f : WSHandle → SessionWsId)
    (ops : List RegOp) (hd : ∀ op ∈ ops, RegDiscipline f op)
    (k1 k2 : SessionWsId) (s1 s2 : Finset WSHandle) (w : WSHandle)
    (h1 : (k1, s1) ∈ runOps ops) (h2 : (k2, s2) ∈ runOps ops)
    (hw1 : w ∈ s1) (hw2 : w ∈ s2) : k1 = k2 := by
  have hown : HandleOwner f (runOps ops) :=
    handleOwner_foldl f ops [] (by intro p hp; simp at hp) hd
  exact (hown (k1, s1) h1 w hw1).trans (hown (k2, s2) h2 w hw2).symm

/-- Witness for the amended C9 on the one-element trace register(0, 0). -/
theorem handle_at_most_one_identity_witness :
    (∀ op ∈ [RegOp.reg 0 0], RegDiscipline (fun w => w) op)
    ∧ ((0 : SessionWsId), ({0} : Finset WSHandle)) ∈ runOps [RegOp.reg 0 0]
    ∧ (0 : SessionWsId) = 0 :=
  ⟨by decide, by decide,
    handle_at_most_one_identity (fun w => w) [RegOp.reg 0 0] (by decide)
      0 0 {0} {0} 0 (by decide) (by decide) (by decide) (by decide)⟩

/-- Fan-out close of a snapshot of handles through `asyncio.gather`: the
gather call wraps every close coroutine in a task at once, so close is
requested on every handle of the snapshot, and — since gather is used
without return_exceptions — the bulk call raises for its caller exactly
when some individual close raises.  `closeRaises` models which handles'
close calls raise.  First component: handles on which close was requested;
second component: whether the bulk call raises. -/
def gatherClose (closeRaises : WSHandle → Bool) (wsrs : Finset WSHandle) :
    Finset WSHandle × Bool :=
  (wsrs, decide (∃ w ∈ wsrs, closeRaises w = true))

/-- The snapshot taken by `SessionWSRegistry.close_all`:
`set().union(*self.values())`. -/
def unionAll : Registry → Finset WSHandle
  | [] => ∅
  | (_, s) :: t => s ∪ unionAll t

/-- `SessionWSRegistry.close_all`: gather close over the union of every
value of the registry. -/
def close_all (closeRaises : WSHandle → Bool) (r : Registry) :
    Finset WSHandle × Bool :=
  gatherClose closeRaises (unionAll r)

/-- `SessionWSRegistry.close_all_session`: snapshots
`self.get(session_ws_id, set())` and gathers close on each member. -/
def close_all_session (closeRaises : WSHandle → Bool) (r : Registry)
    (session_ws_id : SessionWsId) : Finset WSHandle × Bool :=
  gatherClose closeRaises ((lookupReg r session_ws_id).getD ∅)

/-- Claim C4 counterexample: with identity 0 owning handles 1 and 2 and the
close of handle 1 raising, close is still requested on both handles, yet
the bulk close_all_session call raises to its caller: the individual
failure is propagated, not aggregated or logged away. -/
theorem close_error_propagates_cex :
    (close_all_session (fun w => w == 1)
      [((0 : SessionWsId), ({1, 2} : Finset WSHandle))] 0).1 = {1, 2}
    ∧ (close_all_session (fun w => w == 1)
      [((0 : SessionWsId), ({1, 2} : Finset WSHandle))] 0).2 = true := by
  decide

/-- Claim C4 (amended): in a bulk close, close is requested on every handle
of the snapshot even when some closes raise, but an exception from one
individual close propagates to the caller of the bulk operation: close_all
and close_all_session raise exactly when some handle of their snapshot
raises on close. -/
theorem close_bulk_attempts_all_errors_propagate
    (closeRaises : WSHandle → Bool) (r : Registry) (i : SessionWsId) :
    (close_all_session closeRaises r i).1 = (lookupReg r i).getD ∅
    ∧ ((close_all_session closeRaises r i).2 = true ↔
        ∃ w ∈ (lookupReg r i).getD ∅, closeRaises w = true)
    ∧ (close_all closeRaises r).1 = unionAll r
    ∧ ((close_all closeRaises r).2 = true ↔
        ∃ w ∈ unionAll r, closeRaises w = true) := by
  refine ⟨rfl, ?_, rfl, ?_⟩ <;> simp [close_all_session, close_all, gatherClose]

/-- One step of an interleaving of registry mutations and bulk closes;
`closed` accumulates the handles that have received a close request. -/
inductive TraceOp where
  | reg (session_ws_id : SessionWsId) (wsr : WSHandle)
  | unreg (session_ws_id : SessionWsId) (wsr : WSHandle)
  | closeAllSession (session_ws_id : SessionWsId)
  deriving DecidableEq

structure TraceState where
  registry : Registry
  closed : Finset WSHandle
  deriving DecidableEq

def traceStep (s : TraceState) : TraceOp → TraceState
  | .reg i w => { s with registry := register s.registry i w }
  | .unreg i w => { s with registry := (unregister s.registry i w).state }
  | .closeAllSession i =>
    { s with closed := s.closed ∪ (lookupReg s.registry i).getD ∅ }

def runTrace (ops : List TraceOp) : TraceState :=
  ops.foldl traceStep ⟨[], ∅⟩

/-- Claim C5: close_all_session requests close on exactly the handles
associated with the identity at the moment the call starts (closing does
not itself mutate the registry), on an absent identity it closes nothing
and raises nothing, and in the spec's scenario a third handle registered
under the identity after the snapshot receives no close request and is
still registered. -/
theorem close_all_session_snapshot (closeRaises : WSHandle → Bool)
    (s : TraceState) (i : SessionWsId)
    (r2 : Registry) (i2 : SessionWsId) (habs : lookupReg r2 i2 = none) :
    (traceStep s (TraceOp.closeAllSession i)).registry = s.registry
    ∧ (traceStep s (TraceOp.closeAllSession i)).closed =
        s.closed ∪ (lookupReg s.registry i).getD ∅
    ∧ (close_all_session closeRaises s.registry i).1 =
        (lookupReg s.registry i).getD ∅
    ∧ close_all_session closeRaises r2 i2 = (∅, false)
    ∧ (runTrace [TraceOp.reg 0 1, TraceOp.reg 0 2, TraceOp.closeAllSession 0,
        TraceOp.reg 0 3]).closed = {1, 2}
    ∧ (3 : WSHandle) ∉ (runTrace [TraceOp.reg 0 1, TraceOp.reg 0 2,
        TraceOp.closeAllSession 0, TraceOp.reg 0 3]).closed
    ∧ (3 : WSHandle) ∈ (lookupReg (runTrace [TraceOp.reg 0 1, TraceOp.reg 0 2,
        TraceOp.closeAllSession 0, TraceOp.reg 0 3]).registry 0).getD ∅ := by
  refine ⟨rfl, rfl, rfl, ?_, by decide, by decide, by decide⟩
  simp [close_all_session, gatherClose, habs]

/-- Witness for C5 with the absent identity 0 of the empty registry. -/
theorem close_all_session_snapshot_witness :
    lookupReg ([] : Registry) 0 = none
    ∧ close_all_session (fun _ => false) ([] : Registry) 0 = (∅, false) :=
  ⟨rfl,
    (close_all_session_snapshot (fun _ => false) ⟨[], ∅⟩ 0 [] 0 rfl).2.2.2.1⟩

/-- The per-request session, reduced to the one field this library touches:
the value stored under the registry's session_key, absent or an id. -/
structure SessionState where
  session_ws_id : Option SessionWsId
  deriving DecidableEq

/-- A request's session together with how many times the registry's
id_factory has been invoked; the factory result may depend on the
invocation count, modelling a fresh value per call. -/
structure IdAccessorState where
  session : SessionState
  factoryCalls : Nat
  deriving DecidableEq

/-- `SessionWSRegistry.get_id`: `session.get(self.session_key)`. -/
def get_id (s : SessionState) : Option SessionWsId :=
  s.session_ws_id

/-- `SessionWSRegistry.new_id`: stores `await self.generate_id(request)`
under the session key, invoking the id_factory exactly once. -/
def new_id (id_factory : Nat → SessionWsId) (st : IdAccessorState) :
    IdAccessorState :=
  { session := { session_ws_id := some (id_factory st.factoryCalls) },
    factoryCalls := st.factoryCalls + 1 }

/-- `SessionWSRegistry.ensure_id`: mint a new id only when the session
holds none. -/
def ensure_id (id_factory : Nat → SessionWsId) (st : IdAccessorState) :
    IdAccessorState :=
  if get_id st.session = none then new_id id_factory st else st

/-- Claim C6: on a session with no prior identity, calling ensure_id twice
in a row invokes the id factory exactly once and mints exactly one identity
(the second call is a no-op), and ensure_id on a session already holding an
identity changes nothing. -/
theorem ensure_id_idempotent (id_factory : Nat → SessionWsId)
    (st : IdAccessorState) (v : SessionWsId) (n : Nat) :
    ensure_id id_factory (ensure_id id_factory st) = ensure_id id_factory st
    ∧ ensure_id id_factory ⟨⟨none⟩, n⟩ = ⟨⟨some (id_factory n)⟩, n + 1⟩
    ∧ (ensure_id id_factory (ensure_id id_factory ⟨⟨none⟩, n⟩)).factoryCalls
        = n + 1
    ∧ ensure_id id_factory ⟨⟨some v⟩, n⟩ = ⟨⟨some v⟩, n⟩ := by
  have hsome : ∀ st2 : IdAccessorState, get_id st2.session ≠ none →
      ensure_id id_factory st2 = st2 := by
    intro st2 h
    simp [ensure_id, h]
  have hnone : ∀ n2 : Nat, ensure_id id_factory ⟨⟨none⟩, n2⟩ =
      ⟨⟨some (id_factory n2)⟩, n2 + 1⟩ := by
    intro n2
    simp [ensure_id, get_id, new_id]
  refine ⟨?_, hnone n, ?_, ?_⟩
  · cases hst : get_id st.session with
    | none =>
      have h1 : ensure_id id_factory st = new_id id_factory st := by
        simp [ensure_id, hst]
      rw [h1, hsome (new_id id_factory st) (by simp [new_id, get_id])]
    | some v2 =>
      have h2 : ensure_id id_factory st = st := hsome st (by simp [hst])
      rw [h2, h2]
  · rw [hnone n, hsome _ (by simp [get_id])]
  · exact hsome ⟨⟨some v⟩, n⟩ (by simp [get_id])

/-- Events around one request whose handler calls
`schedule_close_all_session`.  `scheduleCall` is the call itself: it reads
the session id, spawns the onclose future with `asyncio.ensure_future` and
returns at once; `responseSent` is completion of `request.task` (the
triggering response has been fully transmitted); `fireDeferred` is the
event loop resuming the onclose coroutine past `await request.task`, which
then runs `close_all_session` on the id captured at schedule time; registry
mutations from other tasks interleave freely. -/
inductive DeferEv where
  | scheduleCall
  | responseSent
  | fireDeferred
  | reg (session_ws_id : SessionWsId) (wsr : WSHandle)
  | unreg (session_ws_id : SessionWsId) (wsr : WSHandle)
  deriving DecidableEq

structure DeferState where
  registry : Registry
  closed : Finset WSHandle
  scheduled : Bool
  sent : Bool
  fired : Nat
  capturedId : Option SessionWsId
  deriving DecidableEq

/-- Guarded small-step semantics; `none` means the event cannot occur: the
single schedule call already happened, the response is already sent, or the
onclose coroutine is still blocked on `await request.task` (it may resume
only once the response transmission has completed) or was already run (one
future runs at most once). -/
def deferStep (sid : SessionWsId) (s : DeferState) :
    DeferEv → Option DeferState
  | .scheduleCall =>
    if s.scheduled = true ∨ s.fired ≠ 0 then none
    else some { s with scheduled := true, capturedId := some sid }
  | .responseSent =>
    if s.sent = true then none
    else some { s with sent := true }
  | .fireDeferred =>
    if s.scheduled = true ∧ s.sent = true then
      let snap := (close_all_session (fun _ => false) s.registry
        (s.capturedId.getD 0)).1
      some { s with
        scheduled := false
        fired := s.fired + 1
        closed := s.closed ∪ snap }
    else none
  | .reg i w => some { s with registry := register s.registry i w }
  | .unreg i w => some { s with registry := (unregister s.registry i w).state }

def deferInit : DeferState :=
  ⟨[], ∅, false, false, 0, none⟩

def runFrom (sid : SessionWsId) (s : DeferState) :
    List DeferEv → Option DeferState
  | [] => some s
  | ev :: evs =>
    match deferStep sid s ev with
    | none => none
    | some s2 => runFrom sid s2 evs

def runDefer (sid : SessionWsId) (evs : List DeferEv) : Option DeferState :=
  runFrom sid deferInit evs

/-- Pending-or-done count for the single deferred close. -/
def deferCount (s : DeferState) : Nat :=
  s.fired + (if s.scheduled = true then 1 else 0)

theorem deferStep_count_le {sid : SessionWsId} {s s2 : DeferState}
    {ev : DeferEv} (h : deferStep sid s ev = some s2)
    (hle : deferCount s ≤ 1) : deferCount s2 ≤ 1 := by
  cases ev with
  | scheduleCall =>
    by_cases hg : s.scheduled = true ∨ s.fired ≠ 0
    · simp [deferStep, hg] at h
    · simp only [deferStep, if_neg hg] at h
      obtain rfl := Option.some.inj h
      push_neg at hg
      simp [deferCount, hg.2]
  | responseSent =>
    by_cases hg : s.sent = true
    · simp [deferStep, hg] at h
    · simp only [deferStep, if_neg hg] at h
      obtain rfl := Option.some.inj h
      simpa [deferCount] using hle
  | fireDeferred =>
    by_cases hg : s.scheduled = true ∧ s.sent = true
    · simp only [deferStep, if_pos hg] at h
      obtain rfl := Option.some.inj h
      rw [deferCount, if_pos hg.1] at hle
      simp only [deferCount, if_neg (by simp : ¬(false = true))]
      omega
    · simp [deferStep, hg] at h
  | reg i w =>
    simp only [deferStep] at h
    obtain rfl := Option.some.inj h
    simpa [deferCount] using hle
  | unreg i w =>
    simp only [deferStep] at h
    obtain rfl := Option.some.inj h
    simpa [deferCount] using hle

theorem deferStep_count_ge {sid : SessionWsId} {s s2 : DeferState}
    {ev : DeferEv} (h : deferStep sid s ev = some s2)
    (hge : 1 ≤ deferCount s) : 1 ≤ deferCount s2 := by
  cases ev with
  | scheduleCall =>
    by_cases hg : s.scheduled = true ∨ s.fired ≠ 0
    · simp [deferStep, hg] at h
    · simp only [deferStep, if_neg hg] at h
      obtain rfl := Option.some.inj h
      simp [deferCount]
  | responseSent =>
    by_cases hg : s.sent = true
    · simp [deferStep, hg] at h
    · simp only [deferStep, if_neg hg] at h
      obtain rfl := Option.some.inj h
      simpa [deferCount] using hge
  | fireDeferred =>
    by_cases hg : s.scheduled = true ∧ s.sent = true
    · simp only [deferStep, if_pos hg] at h
      obtain rfl := Option.some.inj h
      simp [deferCount]
    · simp [deferStep, hg] at h
  | reg i w =>
    simp only [deferStep] at h
    obtain rfl := Option.some.inj h
    simpa [deferCount] using hge
  | unreg i w =>
    simp only [deferStep] at h
    obtain rfl := Option.some.inj h
    simpa [deferCount] using hge

theorem deferStep_schedule_shape {sid : SessionWsId} {s0 s1 : DeferState}
    (h : deferStep sid s0 DeferEv.scheduleCall = some s1) :
    s1 = { s0 with scheduled := true, capturedId := some sid } := by
  by_cases hg : s0.scheduled = true ∨ s0.fired ≠ 0
  · simp [deferStep, hg] at h
  · simp only [deferStep, if_neg hg] at h
    exact (Option.some.inj h).symm

theorem deferStep_fire_guard {sid : SessionWsId} {s s2 : DeferState}
    (h : deferStep sid s DeferEv.fireDeferred = some s2) :
    s.scheduled = true ∧ s.sent = true := by
  by_cases hg : s.scheduled = true ∧ s.sent = true
  · exact hg
  · simp [deferStep, hg] at h

theorem deferStep_sent_eq {sid : SessionWsId} {s s2 : DeferState}
    {ev : DeferEv} (h : deferStep sid s ev = some s2) :
    ev = DeferEv.responseSent ∨ s2.sent = s.sent := by
  cases ev with
  | scheduleCall =>
    exact Or.inr (by rw [deferStep_schedule_shape h])
  | responseSent => exact Or.inl rfl
  | fireDeferred =>
    by_cases hg : s.scheduled = true ∧ s.sent = true
    · simp only [deferStep, if_pos hg] at h
      obtain rfl := Option.some.inj h
      exact Or.inr rfl
    · simp [deferStep, hg] at h
  | reg i w =>
    simp only [deferStep] at h
    obtain rfl := Option.some.inj h
    exact Or.inr rfl
  | unreg i w =>
    simp only [deferStep] at h
    obtain rfl := Option.some.inj h
    exact Or.inr rfl

theorem runFrom_cons {sid : SessionWsId} {s s2 : DeferState} {ev : DeferEv}
    {evs : List DeferEv} (h : runFrom sid s (ev :: evs) = some s2) :
    ∃ s3, deferStep sid s ev = some s3 ∧ runFrom sid s3 evs = some s2 := by
  cases hstep : deferStep sid s ev with
  | none => simp [runFrom, hstep] at h
  | some s3 =>
    refine ⟨s3, rfl, ?_⟩
    simpa [runFrom, hstep] using h

theorem runFrom_append {sid : SessionWsId} (l : List DeferEv) :
    ∀ {s s2 : DeferState} {r : List DeferEv},
      runFrom sid s (l ++ r) = some s2 →
      ∃ s3, runFrom sid s l = some s3 ∧ runFrom sid s3 r = some s2 := by
  induction l with
  | nil =>
    intro s s2 r h
    exact ⟨s, rfl, h⟩
  | cons ev t ih =>
    intro s s2 r h
    obtain ⟨s3, hstep, hrest⟩ := runFrom_cons h
    obtain ⟨s4, h4, h5⟩ := ih hrest
    exact ⟨s4, by simp [runFrom, hstep, h4], h5⟩

theorem runFrom_count_le {sid : SessionWsId} (evs : List DeferEv) :
    ∀ {s s2 : DeferState}, runFrom sid s evs = some s2 →
      deferCount s ≤ 1 → deferCount s2 ≤ 1 := by
  induction evs with
  | nil =>
    intro s s2 h hle
    obtain rfl := Option.some.inj h
    exact hle
  | cons ev t ih =>
    intro s s2 h hle
    obtain ⟨s3, hstep, hrest⟩ := runFrom_cons h
    exact ih hrest (deferStep_count_le hstep hle)

theorem runFrom_count_ge {sid : SessionWsId} (evs : List DeferEv) :
    ∀ {s s2 : DeferState}, runFrom sid s evs = some s2 →
      1 ≤ deferCount s → 1 ≤ deferCount s2 := by
  induction evs with
  | nil =>
    intro s s2 h hge
    obtain rfl := Option.some.inj h
    exact hge
  | cons ev t ih =>
    intro s s2 h hge
    obtain ⟨s3, hstep, hrest⟩ := runFrom_cons h
    exact ih hrest (deferStep_count_ge hstep hge)

theorem runFrom_sched_mem {sid : SessionWsId} (evs : List DeferEv) :
    ∀ {s s2 : DeferState}, runFrom sid s evs = some s2 →
      DeferEv.scheduleCall ∈ evs → 1 ≤ deferCount s2 := by
  induction evs with
  | nil =>
    intro s s2 _ hmem
    exact absurd hmem (List.not_mem_nil _)
  | cons ev t ih =>
    intro s s2 h hmem
    obtain ⟨s3, hstep, hrest⟩ := runFrom_cons h
    rcases List.mem_cons.mp hmem with heq | hmem2
    · subst heq
      have h3 : 1 ≤ deferCount s3 := by
        rw [deferStep_schedule_shape hstep]
        simp [deferCount]
      exact runFrom_count_ge t hrest h3
    · exact ih hrest hmem2

theorem runFrom_sent_mem {sid : SessionWsId} (evs : List DeferEv) :
    ∀ {s s2 : DeferState}, runFrom sid s evs = some s2 →
      s2.sent = true → s.sent = true ∨ DeferEv.responseSent ∈ evs := by
  induction evs with
  | nil =>
    intro s s2 h hsent
    obtain rfl := Option.some.inj h
    exact Or.inl hsent
  | cons ev t ih =>
    intro s s2 h hsent
    obtain ⟨s3, hstep, hrest⟩ := runFrom_cons h
    rcases ih hrest hsent with h3 | h3
    · rcases deferStep_sent_eq hstep with hev | hev
      · subst hev
        exact Or.inr (List.mem_cons_self _ _)
      · exact Or.inl (hev ▸ h3)
    · exact Or.inr (List.mem_cons_of_mem _ h3)

/-- Claim C2: for a call to schedule_close_all_session while the response is
in flight — one scheduleCall event in the trace — the deferred bulk close
runs exactly once in every complete trace (one the event loop has drained:
no onclose future still pending), it can start only after the triggering
response's transmission has completed (every fireDeferred is preceded by
responseSent), and the scheduling call itself closes nothing, fires
nothing, and leaves the registry untouched while capturing the identity
read at schedule time. -/
theorem schedule_close_all_deferred (sid : SessionWsId)
    (evs : List DeferEv) (s : DeferState)
    (hrun : runDefer sid evs = some s)
    (hsched : DeferEv.scheduleCall ∈ evs)
    (hdone : s.scheduled = false)
    (l r : List DeferEv) (s2 : DeferState)
    (hrun2 : runDefer sid (l ++ DeferEv.fireDeferred :: r) = some s2)
    (s0 s1 : DeferState)
    (hstep : deferStep sid s0 DeferEv.scheduleCall = some s1) :
    s.fired = 1
    ∧ DeferEv.responseSent ∈ l
    ∧ s1.registry = s0.registry ∧ s1.closed = s0.closed
    ∧ s1.fired = s0.fired ∧ s1.capturedId = some sid := by
  refine ⟨?_, ?_, ?_⟩
  · have hle : deferCount s ≤ 1 :=
      runFrom_count_le evs hrun (by simp [deferCount, deferInit])
    have hge : 1 ≤ deferCount s :=
      runFrom_sched_mem evs hrun hsched
    rw [deferCount, hdone] at hle hge
    simp at hle hge
    omega
  · obtain ⟨s3, hl, hr⟩ := runFrom_append l hrun2
    obtain ⟨s4, hstep4, _⟩ := runFrom_cons hr
    have hsent3 : s3.sent = true := (deferStep_fire_guard hstep4).2
    rcases runFrom_sent_mem l hl hsent3 with h | h
    · exact absurd h (by simp [deferInit])
    · exact h
  · rw [deferStep_schedule_shape hstep]
    exact ⟨rfl, rfl, rfl, rfl⟩

/-- Witness for C2 on the concrete trace: schedule, response transmitted,
deferred close fires; the drained final state has fired once. -/
theorem schedule_close_all_deferred_witness :
    runDefer 0 [DeferEv.scheduleCall, DeferEv.responseSent,
        DeferEv.fireDeferred] = some ⟨[], ∅, false, true, 1, some 0⟩
    ∧ (⟨[], ∅, false, true, 1, some 0⟩ : DeferState).fired = 1
    ∧ DeferEv.responseSent ∈ [DeferEv.scheduleCall, DeferEv.responseSent] := by
  have hmain := schedule_close_all_deferred 0
    [DeferEv.scheduleCall, DeferEv.responseSent, DeferEv.fireDeferred]
    ⟨[], ∅, false, true, 1, some 0⟩ (by decide) (by decide) (by decide)
    [DeferEv.scheduleCall, DeferEv.responseSent] []
    ⟨[], ∅, false, true, 1, some 0⟩ (by decide)
    deferInit ⟨[], ∅, true, false, 0, some 0⟩ (by decide)
  exact ⟨by decide, hmain.1, hmain.2.1⟩

/-- Exit paths of the application logic inside
`async with session_ws(request) as wsr`. -/
inductive ExitPath where
  | normalReturn
  | raisedError
  | cancelled
  deriving DecidableEq

/-- Result of one pass through the request-scoped binding. -/
structure BindingRun where
  registry : Registry
  unregisterCalls : Nat
  deriving DecidableEq

/-- Embedding of `session_ws.__aenter__` / `__aexit__` around one request:
`__aenter__` registers the response and then awaits `prepare` (the
handshake).  When `prepare` succeeds, the body runs and, on every exit path
— normal return, raised error or cancellation — `async with` invokes
`__aexit__`, which calls unregister exactly once.  When `prepare` raises,
`__aenter__` itself raises and Python does not invoke `__aexit__`, so
unregister is never called and the handle stays registered. -/
def session_ws_run (r : Registry) (session_ws_id : SessionWsId)
    (wsr : WSHandle) (prepareSucceeds : Bool) (path : ExitPath) :
    BindingRun :=
  let r1 := register r session_ws_id wsr
  if prepareSucceeds = true then
    { registry := (unregister r1 session_ws_id wsr).state,
      unregisterCalls := 1 }
  else
    { registry := r1, unregisterCalls := 0 }

/-- Claim C3, evaluated at the failing input: when the handshake
(`response.prepare`) succeeds, unregister runs exactly once on every exit
path, but when `prepare` raises after registration — the case the claim
explicitly includes — unregister runs zero times, not once, and the handle
is left registered under the identity. -/
theorem session_ws_prepare_failure_skips_unregister :
    (∀ path : ExitPath,
      (session_ws_run [] 0 7 true path).unregisterCalls = 1)
    ∧ (session_ws_run [] 0 7 false ExitPath.normalReturn).unregisterCalls = 0
    ∧ (7 : WSHandle) ∈
      (lookupReg (session_ws_run [] 0 7 false
        ExitPath.normalReturn).registry 0).getD ∅ :=
  ⟨fun _ => rfl, rfl, by decide⟩

end AiohttpSessionWs
